import Mathlib

/-!
Shallow embedding of the PESTO light-curve cleaning pipeline
(lightcurve.py) and proofs about its record-processing functions.

Records are the 13 tab-separated columns of a result file:
stack, exposure mean, exposure stdev, time, time stdev, centroid x,
centroid y, pixel area, flux, flux error, magnitude, magnitude error,
filter label.  Numeric columns are modelled as exact scalars; file
output is modelled as the list of records written, and a Python
exception is modelled as the absence of a result (Option.none).
-/

set_option maxRecDepth 2000

namespace PESTO

/-- One observation row (13 columns of the result-file format). -/
structure Record (α : Type) where
  stack : α
  expMean : α
  expStdev : α
  time : α
  timeStdev : α
  cx : α
  cy : α
  area : α
  flux : α
  fluxErr : α
  mag : α
  magErr : α
  filter : String
  deriving DecidableEq, Repr

/-- Default record, used as the out-of-range placeholder for list indexing
that the source performs only at indices known to be in bounds. -/
def dflt : Record ℚ :=
  ⟨0, 0, 0, 0, 0, 0, 0, 0, 0, 0, 0, 0, ""⟩

/-- Record builder varying time and flux, shared by concrete test inputs. -/
def mkRec (t fl : ℚ) : Record ℚ :=
  ⟨1, 10, 1, t, 1, 2, 3, 4, fl, 1, 0, 0, "g"⟩

/-- Successive differences of a list, as the source builds them:
entry i is l(i+1) - l(i)  (lightcurve.py lines 229-231 and 330-332). -/
def diffList {α : Type} [Sub α] : List α → List α
  | a :: b :: rest => (b - a) :: diffList (b :: rest)
  | _ => []

/-!
## smooth (lightcurve.py lines 278-378)

Line 294 binds the thirteen per-column accumulator names
d0, d1, ..., d12 to the elements of the generator
([] for i in range(10)), which yields only ten values, so the
unpacking raises ValueError before any record is processed.  The
same unpacking appears again at lines 312-313 for the smoothed
columns nsd0, ..., nsd12.  `pyUnpack13` models Python tuple
unpacking into thirteen names: it succeeds exactly on a
thirteen-element sequence.
-/

/-- Python unpacking of a sequence into thirteen names: some iff the
sequence has exactly thirteen elements. -/
def pyUnpack13 {α : Type} (l : List α) :
    Option (α × α × α × α × α × α × α × α × α × α × α × α × α) :=
  match l with
  | [a0, a1, a2, a3, a4, a5, a6, a7, a8, a9, a10, a11, a12] =>
    some (a0, a1, a2, a3, a4, a5, a6, a7, a8, a9, a10, a11, a12)
  | _ => none

/-- The 3-point average of a consecutive triplet of records
(lightcurve.py lines 314-327).  Every numeric column is averaged;
the filter column nsd12 takes the first record of the triplet. -/
def avgRow (r1 r2 r3 : Record ℚ) : Record ℚ where
  stack := (r1.stack + r2.stack + r3.stack) / 3
  expMean := (r1.expMean + r2.expMean + r3.expMean) / 3
  expStdev := (r1.expStdev + r2.expStdev + r3.expStdev) / 3
  time := (r1.time + r2.time + r3.time) / 3
  timeStdev := (r1.timeStdev + r2.timeStdev + r3.timeStdev) / 3
  cx := (r1.cx + r2.cx + r3.cx) / 3
  cy := (r1.cy + r2.cy + r3.cy) / 3
  area := (r1.area + r2.area + r3.area) / 3
  flux := (r1.flux + r2.flux + r3.flux) / 3
  fluxErr := (r1.fluxErr + r2.fluxErr + r3.fluxErr) / 3
  mag := (r1.mag + r2.mag + r3.mag) / 3
  magErr := (r1.magErr + r2.magErr + r3.magErr) / 3
  filter := r1.filter

/-- smooth (lightcurve.py lines 278-378).  threshold = -1 is the
sentinel for the default threshold factor * mean(time gaps); the
result is the list of records written to the output file, or none
when the Python code raises before finishing.  The thirteen-name
unpackings of lines 294 and 312-313 are modelled by `pyUnpack13`
applied to the ten-element generator output; on success (which never
happens) the accumulators start empty and are filled from the parsed
file, so the columns are modelled directly as projections of
contents. -/
def smooth (threshold factor : ℚ) (contents : List (Record ℚ)) :
    Option (List (Record ℚ)) := do
  let _acc ← pyUnpack13 (List.replicate 10 ([] : List ℚ))
  let _acc2 ← pyUnpack13 (List.replicate 10 ([] : List ℚ))
  let nsd := (List.range (contents.length - 2)).map (fun i =>
    avgRow (contents.getD i dflt) (contents.getD (i + 1) dflt)
      (contents.getD (i + 2) dflt))
  let tDif := diffList (nsd.map (·.time))
  let thr ← if threshold = -1 then
      (if tDif.length = 0 then none
       else some (factor * tDif.sum / (tDif.length : ℚ)))
    else pure threshold
  let first ← nsd.head?
  let kept := ((nsd.drop 1).zip tDif).filterMap (fun p =>
    if p.2 ≤ thr then some { p.1 with filter := first.filter } else none)
  pure (first :: kept)

/-- C1: smooth never completes: the thirteen-name accumulator
unpacking at lightcurve.py line 294 receives only ten values and
raises ValueError for every input, so no output record is ever
written — here evaluated on a concrete three-record series, for which
the claim promises at least one output record. -/
theorem c1_smooth_unpack_fails :
    pyUnpack13 (List.replicate 10 ([] : List ℚ)) = none ∧
    smooth (-1) (41 / 40) [mkRec 0 10, mkRec 1 11, mkRec 2 12] = none :=
  ⟨rfl, rfl⟩

/-- C6 counterexample: on a three-record input the claim demands
exactly N - 2 = 1 output record, but smooth aborts at the
thirteen-from-ten accumulator unpacking and yields no output at
all. -/
theorem c6_counterexample :
    smooth (-1) (41 / 40) [mkRec 3 5, mkRec 4 5, mkRec 5 5] = none :=
  rfl

/-- C6 amended: for every threshold, factor and input series, smooth
aborts at the accumulator unpacking of lightcurve.py line 294 and
yields zero output records. -/
theorem c6_smooth_always_aborts (threshold factor : ℚ)
    (contents : List (Record ℚ)) :
    smooth threshold factor contents = none :=
  rfl

/-!
## correct_day_transition (lightcurve.py lines 109-151)
-/

/-- The break index of the transition scan (lightcurve.py lines
136-140): the position i+1 of the second element of the first
adjacent pair with times(i) > upper_limit and times(i+1) <
lower_limit, or none when no such pair exists. -/
def findTransition (lowerLimit upperLimit : ℚ) : List ℚ → Option ℕ
  | t1 :: t2 :: rest =>
    if t1 > upperLimit ∧ t2 < lowerLimit then some 1
    else (findTransition lowerLimit upperLimit (t2 :: rest)).map (· + 1)
  | _ => none

/-- The correction loop (lightcurve.py lines 144-145): adds 86400 to
records at positions in range(index+1, len), i.e. from cut = index+1
on.  The counter i tracks the current position. -/
def bumpFrom (cut : ℕ) : ℕ → List (Record ℚ) → List (Record ℚ)
  | _, [] => []
  | i, r :: rs =>
    (if cut ≤ i then { r with time := r.time + 86400 } else r) ::
      bumpFrom cut (i + 1) rs

/-- correct_day_transition (lightcurve.py lines 109-151): detects the
first wrapped pair and shifts later timestamps; all records are then
written out (shifted or not). -/
def correct_day_transition (lowerLimit upperLimit : ℚ)
    (contents : List (Record ℚ)) : List (Record ℚ) :=
  match findTransition lowerLimit upperLimit (contents.map (·.time)) with
  | none => contents
  | some idx => bumpFrom (idx + 1) 0 contents

/-- C2: on times (86001, 100, 150) with the default limits the wrapped
pair is (86001, 100), detected at index 1.  The claim requires 86400
to be added from the second element of the pair on, giving
(86001, 86500, 86550); the code instead starts at index+1 and leaves
record 1 unchanged, giving (86001, 100, 86550) — so the output still
contains an adjacent jump larger than 85000 seconds and still fails
the day-transition precondition the repair was meant to establish. -/
theorem c2_repair_skips_first_wrapped :
    (correct_day_transition 200 86000
        [mkRec 86001 1, mkRec 100 2, mkRec 150 3]).map (·.time)
      = [86001, 100, 86550] ∧
    [(86001 : ℚ), 100, 86550] ≠ [86001, 86500, 86550] := by
  constructor
  · norm_num [correct_day_transition, findTransition, bumpFrom, mkRec]
  · norm_num

/-!
## set_initial_time_zero (lightcurve.py lines 79-107)
-/

/-- Zero-basing of one record (lightcurve.py lines 100-104): the time
column becomes time - initial_time, every other column is copied. -/
def shiftBy (t0 : ℚ) (r : Record ℚ) : Record ℚ :=
  { r with time := r.time - t0 }

/-- The record-writing loop of set_initial_time_zero (lightcurve.py
lines 92-107).  State old is old_timestamp; the Bool is true when the
loop ran to completion and false when the day-transition check of
line 94 fired (warn and return), in which case the records written so
far remain in the output. -/
def sitzGo (t0 : ℚ) : ℚ → List (Record ℚ) → List (Record ℚ) × Bool
  | _, [] => ([], true)
  | old, r :: rs =>
    if |old - r.time| > 85000 then ([], false)
    else
      let rest := sitzGo t0 r.time rs
      (shiftBy t0 r :: rest.1, rest.2)

/-- set_initial_time_zero (lightcurve.py lines 79-107): none on an
empty file (contents(0) raises IndexError); otherwise the records
written and whether the pass completed. -/
def set_initial_time_zero : List (Record ℚ) → Option (List (Record ℚ) × Bool)
  | [] => none
  | c :: rest => some (sitzGo c.time c.time (c :: rest))

/-- The running day-transition check shared by set_initial_time_zero
and sort_by_timestamp (lightcurve.py lines 92-99 and 166-173): true
when every step from the seed timestamp through the list stays within
85000 seconds of its predecessor. -/
def chainOK : ℚ → List (Record ℚ) → Bool
  | _, [] => true
  | old, r :: rs => decide (|old - r.time| ≤ 85000) && chainOK r.time rs

/-- The timestamp held in old_timestamp after scanning a list, seeded
with old. -/
def endTime : ℚ → List (Record ℚ) → ℚ
  | old, [] => old
  | _, r :: rs => endTime r.time rs

/-- Writing loop evaluated on a checked prefix followed by an
offending record: the prefix is written shifted, then the pass stops
with the incomplete flag. -/
theorem sitzGo_prefix (z : Record ℚ) (rest : List (Record ℚ)) (t0 : ℚ) :
    ∀ (l : List (Record ℚ)) (old : ℚ), chainOK old l = true →
      |endTime old l - z.time| > 85000 →
      sitzGo t0 old (l ++ z :: rest) = (l.map (shiftBy t0), false) := by
  intro l
  induction l with
  | nil =>
    intro old _ hjump
    simp only [List.nil_append, sitzGo, endTime] at *
    rw [if_pos hjump]
    rfl
  | cons r rs ih =>
    intro old hok hjump
    simp only [chainOK, Bool.and_eq_true, decide_eq_true_eq] at hok
    simp only [endTime] at hjump
    simp only [List.cons_append, sitzGo, List.append_eq]
    rw [if_neg (by exact not_lt.mpr hok.1), ih r.time hok.2 hjump]
    rfl

/-- C4 amended: when the running check passes on a prefix and the next
record jumps by more than 85000 seconds, set_initial_time_zero stops
with the day-transition warning (incomplete flag) but the zero-based
prefix has already been written: output is not empty, contrary to the
claim of no output at all. -/
theorem c4_prefix_written (c z : Record ℚ) (xs rest : List (Record ℚ))
    (hok : chainOK c.time (c :: xs) = true)
    (hjump : |endTime c.time (c :: xs) - z.time| > 85000) :
    set_initial_time_zero (c :: (xs ++ z :: rest)) =
      some ((c :: xs).map (shiftBy c.time), false) := by
  have h := sitzGo_prefix z rest c.time (c :: xs) c.time hok hjump
  simp only [List.cons_append] at h
  simp only [set_initial_time_zero, h]

/-- C4 witness: a two-record series with times 5 and 90005; the first
record is written zero-based before the check fires. -/
theorem c4_witness :
    set_initial_time_zero [mkRec 5 1, mkRec 90005 2] =
      some ([shiftBy 5 (mkRec 5 1)], false) := by
  have h := c4_prefix_written (mkRec 5 1) (mkRec 90005 2) [] []
    (by norm_num [chainOK, mkRec]) (by norm_num [endTime, mkRec])
  simpa using h

/-- C4 counterexample: times (0, 90000) differ by more than 85000, so
the claim demands that no record at all is written; the code has
already written record 0 (zero-based) when it detects the jump, so the
output holds one record. -/
theorem c4_counterexample :
    set_initial_time_zero [mkRec 0 1, mkRec 90000 2] =
      some ([mkRec 0 1], false) ∧
    |(mkRec 0 1).time - (mkRec 90000 2).time| > 85000 ∧
    ([mkRec 0 1] : List (Record ℚ)) ≠ [] := by
  refine ⟨?_, by norm_num [mkRec], by simp⟩
  norm_num [set_initial_time_zero, sitzGo, shiftBy, mkRec]

/-!
## correct_weather (lightcurve.py lines 415-562)

An alternate source from the weather database is a list of samples
(time, x centroid, y centroid, photon count, factor), in the order
the five columns appear in the database file.
-/

/-- One sample of an alternate source series in the weather database:
the columns ts, xs, ys, pcs, fs of lightcurve.py lines 428-442. -/
structure AltSample (α : Type) where
  t : α
  x : α
  y : α
  pc : α
  f : α
  deriving DecidableEq, Repr

/-- Ten-column output row: line segment of columns 0-7 of the source
record followed by the corrected photon count and its error
(lightcurve.py lines 460-462 and 503, 556-557; also the row shape of
relative_photometry, lines 603-604). -/
structure CorrectedRow (α : Type) where
  stack : α
  expMean : α
  expStdev : α
  time : α
  timeStdev : α
  cx : α
  cy : α
  area : α
  pc : α
  pce : α
  deriving DecidableEq, Repr

/-- The inner bracket scan of correct_weather (lightcurve.py lines
475-490 and 514-533): walk adjacent sample pairs; on the first pair
with t(i) <= tj < t(i+1) stop — usable only when the gap is within
gap_threshold; stop empty-handed when both pair times exceed tj;
otherwise keep scanning. -/
def scanAlt {α : Type} [LinearOrderedField α] (tj gap : α) :
    List (AltSample α) → Option (AltSample α × AltSample α)
  | a :: b :: rest =>
    if a.t ≤ tj ∧ b.t > tj then
      if |b.t - a.t| ≤ gap then some (a, b) else none
    else if a.t > tj ∧ b.t > tj then none
    else scanAlt tj gap (b :: rest)
  | _ => none

/-- Two-point linear interpolation of the factor column at tj
(lightcurve.py lines 479-481 and 522-524). -/
def interpFactor {α : Type} [Field α] (tj : α) (a b : AltSample α) : α :=
  (b.f - a.f) / (b.t - a.t) * tj + (a.f - (b.f - a.f) / (b.t - a.t) * a.t)

/-- The alt_factors list collected for one target record in unweighted
mode (lightcurve.py lines 473-490). -/
def altFactors {α : Type} [LinearOrderedField α] (gap tj : α)
    (alts : List (List (AltSample α))) : List α :=
  alts.filterMap (fun alt =>
    (scanAlt tj gap alt).map (fun ab => interpFactor tj ab.1 ab.2))

/-- Unweighted correction of one target record (lightcurve.py lines
471-506): none models the continue of line 494 (record dropped),
otherwise the corrected output row with factor = mean of
alt_factors. -/
def correctWeatherRecordUnweighted {α : Type} [LinearOrderedField α]
    (gap : α) (alts : List (List (AltSample α))) (r : Record α) :
    Option (CorrectedRow α) :=
  let fs := altFactors gap r.time alts
  if fs.length < 1 then none
  else
    let sf := fs.sum / (fs.length : α)
    some ⟨r.stack, r.expMean, r.expStdev, r.time, r.timeStdev, r.cx, r.cy,
      r.area, sf * r.flux, sf * r.fluxErr⟩

/-- correct_weather in unweighted mode: the rows written for the whole
target series (lightcurve.py lines 469-506). -/
def correct_weather_unweighted {α : Type} [LinearOrderedField α]
    (gap : α) (alts : List (List (AltSample α))) (source : List (Record α)) :
    List (CorrectedRow α) :=
  source.filterMap (correctWeatherRecordUnweighted gap alts)

/-- Scanning skips any prefix whose successor elements all carry times
at or below tj: the scan can neither bracket tj there (the pair's
second time would have to exceed tj) nor stop early. -/
theorem scanAlt_append {α : Type} [LinearOrderedField α] (tj gap : α)
    (a : AltSample α) (suffix : List (AltSample α)) :
    ∀ pre : List (AltSample α), (∀ u ∈ pre, u.t ≤ tj) → a.t ≤ tj →
      scanAlt tj gap (pre ++ a :: suffix) = scanAlt tj gap (a :: suffix) := by
  intro pre
  induction pre with
  | nil => intro _ _; rfl
  | cons u pre ih =>
    intro hpre ha
    have hmem : ∀ v ∈ pre, v.t ≤ tj := fun v hv => hpre v (by simp [hv])
    cases pre with
    | nil =>
      simp only [List.nil_append, List.cons_append, scanAlt]
      rw [if_neg (fun h => absurd h.2 (not_lt.mpr ha)),
        if_neg (fun h => absurd h.2 (not_lt.mpr ha))]
    | cons w pre2 =>
      have hw : w.t ≤ tj := hpre w (by simp)
      simp only [List.cons_append, scanAlt]
      rw [if_neg (fun h => absurd h.2 (not_lt.mpr hw)),
        if_neg (fun h => absurd h.2 (not_lt.mpr hw))]
      simpa using ih hmem ha

/-- Interpolation evaluated at the left endpoint of the bracket is the
left sample factor, exactly. -/
theorem interpFactor_left {α : Type} [Field α] (a b : AltSample α) :
    interpFactor a.t a b = a.f := by
  simp only [interpFactor]
  ring

/-- C8 amended: when the target time equals a NON-FINAL sample time of
an alternate with strictly increasing sample times, and the bracket
gap is within gap_threshold, the unweighted corrector recovers exactly
that sample's factor and multiplies flux and flux error by it. -/
theorem c8_exact_at_inner_sample (gap : ℚ) (pre post : List (AltSample ℚ))
    (a b : AltSample ℚ) (r : Record ℚ)
    (hmono : (pre ++ a :: b :: post).Pairwise (fun u v => u.t < v.t))
    (ht : r.time = a.t) (hgap : |b.t - a.t| ≤ gap) :
    correct_weather_unweighted gap [pre ++ a :: b :: post] [r] =
      [⟨r.stack, r.expMean, r.expStdev, r.time, r.timeStdev, r.cx, r.cy,
        r.area, a.f * r.flux, a.f * r.fluxErr⟩] := by
  rw [List.pairwise_append] at hmono
  have hpre : ∀ u ∈ pre, u.t ≤ r.time := by
    intro u hu
    rw [ht]
    exact le_of_lt (hmono.2.2 u hu a (by simp))
  have hab : a.t < b.t := (List.pairwise_cons.mp hmono.2.1).1 b (by simp)
  have hscan : scanAlt r.time gap (pre ++ a :: b :: post) = some (a, b) := by
    rw [scanAlt_append r.time gap a (b :: post) pre hpre (le_of_eq ht.symm)]
    simp only [scanAlt]
    rw [if_pos ⟨le_of_eq ht.symm, by rw [ht]; exact hab⟩, if_pos hgap]
  have hone : ((scanAlt r.time gap (pre ++ a :: b :: post)).map
      (fun ab => interpFactor r.time ab.1 ab.2)) = some a.f := by
    rw [hscan]
    simp only [Option.map_some']
    rw [ht, interpFactor_left]
  have hfs : altFactors gap r.time [pre ++ a :: b :: post] = [a.f] := by
    simp [altFactors, hone]
  simp [correct_weather_unweighted, correctWeatherRecordUnweighted, hfs]

/-- C8 witness: one alternate with samples at times 0 and 1 and
factors 2 and 3/2; the target sits exactly on the first sample, so its
flux 10 and flux error 1 are scaled by the factor 2. -/
theorem c8_witness :
    correct_weather_unweighted 3
        [[(⟨0, 3, 3, 4, 2⟩ : AltSample ℚ), ⟨1, 3, 3, 4, 3 / 2⟩]]
        [mkRec 0 10] =
      [⟨1, 10, 1, 0, 1, 2, 3, 4, 20, 2⟩] := by
  have h := c8_exact_at_inner_sample 3 [] []
    (⟨0, 3, 3, 4, 2⟩ : AltSample ℚ) ⟨1, 3, 3, 4, 3 / 2⟩ (mkRec 0 10)
    (by norm_num [List.pairwise_cons]) (by norm_num [mkRec]) (by norm_num)
  simp only [List.nil_append] at h
  rw [h]
  norm_num [mkRec]

/-- C8 counterexample: the target time 1 equals the LAST sample time
of the alternate (times 0 and 1, small gap), yet the bracket scan
requires t(i) <= tj < t(i+1) strictly on the right, finds nothing, and
the record is dropped: no factor is obtained and no output row is
written, contrary to the claim. -/
theorem c8_counterexample :
    correct_weather_unweighted 3
        [[(⟨0, 3, 3, 4, 2⟩ : AltSample ℚ), ⟨1, 3, 3, 4, 1⟩]]
        [mkRec 1 10] = [] ∧
    (mkRec 1 10).time = (⟨1, 3, 3, 4, 1⟩ : AltSample ℚ).t := by
  constructor
  · norm_num [correct_weather_unweighted, correctWeatherRecordUnweighted,
      altFactors, scanAlt, mkRec, List.filterMap]
  · rfl

/-!
## correct_weather, weighted mode (lightcurve.py lines 508-560)

The data layout is alt = (ts, xs, ys, pcs, fs), so alt(2) is the
y-centroid column and alt(3) the photon-count column, and likewise
source(2) is the y centroid and source(3) the flux of the target.
Lines 518-521 build the midpoint from alt(2) and alt(3) and measure
the distance from (source(2)(j), source(3)(j)).
-/

/-- The (distance, factor) pair one alternate contributes for a target
record in weighted mode (lightcurve.py lines 517-524), with the
columns exactly as the code indexes them: the midpoint named x is
built from the y-centroid column, the midpoint named y from the
photon-count column, and the distance is taken from the target's
(y centroid, flux). -/
noncomputable def weightedPair (r : Record ℝ)
    (ab : AltSample ℝ × AltSample ℝ) : ℝ × ℝ :=
  (Real.sqrt ((r.cy - (ab.1.y + ab.2.y) / 2) ^ 2 +
      (r.flux - (ab.1.pc + ab.2.pc) / 2) ^ 2),
    interpFactor r.time ab.1 ab.2)

/-- The parallel lists alt_distances and alt_factors collected for one
target record in weighted mode (lightcurve.py lines 512-533), zipped
into pairs. -/
noncomputable def altDistFactors (gap : ℝ) (alts : List (List (AltSample ℝ)))
    (r : Record ℝ) : List (ℝ × ℝ) :=
  alts.filterMap (fun alt => (scanAlt r.time gap alt).map (weightedPair r))

/-- Weighted correction of one target record (lightcurve.py lines
510-560): weight 1/d per contributing alternate, aggregated factor
the weight-normalised sum of the interpolated factors. -/
noncomputable def correctWeatherRecordWeighted (gap : ℝ)
    (alts : List (List (AltSample ℝ))) (r : Record ℝ) :
    Option (CorrectedRow ℝ) :=
  let dw := altDistFactors gap alts r
  if dw.length < 1 then none
  else
    let sumW := (dw.map (fun p => 1 / p.1)).sum
    let sf := (dw.map (fun p => 1 / p.1 / sumW * p.2)).sum
    some ⟨r.stack, r.expMean, r.expStdev, r.time, r.timeStdev, r.cx, r.cy,
      r.area, sf * r.flux, sf * r.fluxErr⟩

/-- Modelled from the spec, for comparison with the code: the claim's
distance is the Euclidean distance between the target's centroid
(cx, cy) and the midpoint centroid of the two bracketing samples
(average of their x values, average of their y values). -/
noncomputable def claimDistance (r : Record ℝ) (a b : AltSample ℝ) : ℝ :=
  Real.sqrt ((r.cx - (a.x + b.x) / 2) ^ 2 + (r.cy - (a.y + b.y) / 2) ^ 2)

/-- Target record for the weighted-mode evaluation: time 1, centroid
(0, 0), flux 0. -/
def targetRecR : Record ℝ :=
  ⟨1, 10, 1, 1, 1, 0, 0, 4, 0, 1, 0, 0, "g"⟩

/-- C5: on an alternate whose two bracketing samples sit at centroid
(3, 3) with photon count 4, and a target at centroid (0, 0) with
flux 0, the code computes distance 5 = sqrt(3^2 + 4^2) — measured in
the (y centroid, photon count) plane because lines 518-521 read
alt(2), alt(3) and source(2), source(3) — while the claim's centroid
distance is sqrt(18) = sqrt(3^2 + 3^2), and sqrt(18) is not 5. -/
theorem c5_distance_uses_wrong_columns :
    (altDistFactors 3 [[(⟨0, 3, 3, 4, 2⟩ : AltSample ℝ), ⟨2, 3, 3, 4, 1⟩]]
        targetRecR).map Prod.fst = [5] ∧
    claimDistance targetRecR ⟨0, 3, 3, 4, 2⟩ ⟨2, 3, 3, 4, 1⟩ =
      Real.sqrt 18 ∧
    Real.sqrt 18 ≠ 5 := by
  refine ⟨?_, ?_, ?_⟩
  · have hscan : scanAlt (targetRecR.time) 3
        [(⟨0, 3, 3, 4, 2⟩ : AltSample ℝ), ⟨2, 3, 3, 4, 1⟩] =
        some (⟨0, 3, 3, 4, 2⟩, ⟨2, 3, 3, 4, 1⟩) := by
      simp only [scanAlt, targetRecR]
      norm_num
    have h25 : weightedPair targetRecR
        ((⟨0, 3, 3, 4, 2⟩ : AltSample ℝ), ⟨2, 3, 3, 4, 1⟩) =
        (5, interpFactor targetRecR.time ⟨0, 3, 3, 4, 2⟩ ⟨2, 3, 3, 4, 1⟩) := by
      simp only [weightedPair, targetRecR]
      norm_num
      rw [show (25 : ℝ) = 5 ^ 2 by norm_num]
      exact Real.sqrt_sq (by norm_num)
    simp [altDistFactors, hscan, h25]
  · simp only [claimDistance, targetRecR]
    norm_num
  · intro h
    have h18 : Real.sqrt 18 ^ 2 = 18 := Real.sq_sqrt (by norm_num)
    rw [h] at h18
    norm_num at h18

/-!
## correct_outliers (lightcurve.py lines 210-251)

statistics.mean is the arithmetic mean; statistics.stdev is the
sample standard deviation with Bessel correction (denominator n - 1)
and raises StatisticsError on fewer than two data points, so the
function aborts before writing anything when there are fewer than
two flux differences (fewer than three records).
-/

/-- Arithmetic mean, statistics.mean (lightcurve.py line 234). -/
noncomputable def pyMean (l : List ℝ) : ℝ :=
  l.sum / (l.length : ℝ)

/-- Sample standard deviation, statistics.stdev (lightcurve.py line
235). -/
noncomputable def pyStdev (l : List ℝ) : ℝ :=
  Real.sqrt ((l.map (fun x => (x - pyMean l) ^ 2)).sum / ((l.length : ℝ) - 1))

/-- correct_outliers (lightcurve.py lines 210-251): none models the
StatisticsError raised before any output when fewer than two flux
differences exist; otherwise record 0 is written (line 240) followed
by every record i+1 whose incoming flux difference lies strictly
between mean - sig*stdev and mean + sig*stdev (lines 243-248). -/
noncomputable def correct_outliers (sig : ℝ) (contents : List (Record ℝ)) :
    Option (List (Record ℝ)) :=
  let d := diffList (contents.map (·.flux))
  if d.length < 2 then none
  else
    let lower := pyMean d - sig * pyStdev d
    let upper := pyMean d + sig * pyStdev d
    match contents with
    | [] => none
    | c0 :: crest =>
      some (c0 :: ((crest.zip d).filterMap (fun p =>
        if lower < p.2 ∧ p.2 < upper then some p.1 else none)))

/-- The successive differences of a constant list are all zero. -/
theorem diffList_const {α : Type} [AddGroup α] (v : α) :
    ∀ l : List α, (∀ x ∈ l, x = v) →
      diffList l = List.replicate (l.length - 1) 0 := by
  intro l
  induction l with
  | nil => intro _; rfl
  | cons x l ih =>
    intro hc
    cases l with
    | nil => rfl
    | cons y rest =>
      have hx : x = v := hc x (by simp)
      have hy : y = v := hc y (by simp)
      have htail : ∀ z ∈ y :: rest, z = v := fun z hz => hc z (by simp [hz])
      have ih2 := ih htail
      simp only [diffList]
      rw [ih2, hx, hy]
      simp [List.replicate_succ, Nat.succ_sub_one]

/-- Shared evaluation: on a constant-flux series of at least three
records, every difference is zero, the sample standard deviation is
zero, the strict acceptance test (0 < 0) fails for every record after
the first, and exactly record 0 survives. -/
theorem correct_outliers_const (sig : ℝ) (a b c : Record ℝ)
    (rest : List (Record ℝ))
    (hconst : ∀ r ∈ (a :: b :: c :: rest), r.flux = a.flux) :
    correct_outliers sig (a :: b :: c :: rest) = some [a] := by
  have hv : ∀ x ∈ (a :: b :: c :: rest).map (·.flux), x = a.flux := by
    intro x hx
    rcases List.mem_map.mp hx with ⟨r, hr, hrx⟩
    rw [← hrx]
    exact hconst r hr
  have hd : diffList ((a :: b :: c :: rest).map (·.flux)) =
      List.replicate (rest.length + 2) 0 := by
    rw [diffList_const a.flux _ hv]
    simp
  have hmean : pyMean (List.replicate (rest.length + 2) 0) = 0 := by
    simp [pyMean]
  have hsd : pyStdev (List.replicate (rest.length + 2) 0) = 0 := by
    simp [pyStdev, hmean]
  simp only [correct_outliers, hd]
  rw [if_neg (by simp [List.length_replicate])]
  simp only [hmean, hsd]
  have hnil : ((b :: c :: rest).zip
      (List.replicate (rest.length + 2) 0)).filterMap
      (fun p : Record ℝ × ℝ =>
        if 0 - sig * 0 < p.2 ∧ p.2 < 0 + sig * 0 then some p.1 else none)
      = [] := by
    rw [List.filterMap_eq_nil_iff]
    intro p hp
    have hz : p.2 = 0 :=
      List.eq_of_mem_replicate (List.of_mem_zip hp).2
    rw [hz]
    norm_num
  rw [hnil]

/-- C3 amended: reject_flux_outliers on a constant-flux series of at
least three records keeps ONLY record 0: every later record is
rejected, because each difference 0 fails the strict test against the
degenerate band (0, 0). -/
theorem c3_constant_keeps_only_first (sig : ℝ) (a b c : Record ℝ)
    (rest : List (Record ℝ))
    (hconst : ∀ r ∈ (a :: b :: c :: rest), r.flux = a.flux) :
    correct_outliers sig (a :: b :: c :: rest) = some [a] :=
  correct_outliers_const sig a b c rest hconst

/-- Record builder over the reals, shared by concrete test inputs. -/
def mkRecR (t fl : ℝ) : Record ℝ :=
  ⟨1, 10, 1, t, 1, 2, 3, 4, fl, 1, 0, 0, "g"⟩

/-- C3 witness: a concrete three-record series of constant flux 9
retains only its first record. -/
theorem c3_witness :
    correct_outliers 3 [mkRecR 4 9, mkRecR 5 9, mkRecR 6 9] =
      some [mkRecR 4 9] :=
  c3_constant_keeps_only_first 3 (mkRecR 4 9) (mkRecR 5 9) (mkRecR 6 9) []
    (by intro r hr; fin_cases hr <;> rfl)

/-- C3 counterexample: on the constant-flux series of three records
the claim demands all three records retained; the code retains only
record 0. -/
theorem c3_counterexample :
    correct_outliers 3 [mkRecR 0 7, mkRecR 1 7, mkRecR 2 7] =
      some [mkRecR 0 7] ∧
    some [mkRecR 0 7] ≠
      some [mkRecR 0 7, mkRecR 1 7, mkRecR 2 7] := by
  constructor
  · exact correct_outliers_const 3 (mkRecR 0 7) (mkRecR 1 7) (mkRecR 2 7) []
      (by intro r hr; fin_cases hr <;> rfl)
  · simp

/-!
## relative_photometry (lightcurve.py lines 564-618)

The two-pointer walk state: cs indexes the source series, ca the
reference (alt) series, out the rows written so far.  One loop
iteration reads both current timestamps (an out-of-range read is the
IndexError modelled by none), optionally emits a row, advances
exactly one pointer (lines 608-616), and stops when the break check
of line 617 fires.  The for loop of line 599 bounds the number of
iterations by len(source) + len(alt).
-/

/-- Walk state of relative_photometry. -/
structure RPState where
  cs : ℕ
  ca : ℕ
  out : List (CorrectedRow ℚ)
  deriving DecidableEq, Repr

/-- The row emitted on a within-threshold match (lightcurve.py lines
603-604): source columns 0-7, then source flux minus reference flux
and source flux error plus reference flux error. -/
def mkRel (s a : Record ℚ) : CorrectedRow ℚ :=
  ⟨s.stack, s.expMean, s.expStdev, s.time, s.timeStdev, s.cx, s.cy, s.area,
    s.flux - a.flux, s.fluxErr + a.fluxErr⟩

/-- One iteration of the walk (lightcurve.py lines 600-616): none when
either current index is out of range (IndexError at line 600). -/
def rpStep (thr : ℚ) (ss sa : List (Record ℚ)) (st : RPState) :
    Option RPState :=
  match ss[st.cs]?, sa[st.ca]? with
  | some s, some a =>
    let nout := if |s.time - a.time| < thr then st.out ++ [mkRel s a]
      else st.out
    some (if s.time > a.time ∨ st.cs = ss.length - 1 then
        ⟨st.cs, st.ca + 1, nout⟩
      else ⟨st.cs + 1, st.ca, nout⟩)
  | _, _ => none

/-- The bounded loop of lightcurve.py lines 599-618, with the break
check of line 617 applied to the advanced state. -/
def rpLoop (thr : ℚ) (ss sa : List (Record ℚ)) :
    ℕ → RPState → Option (List (CorrectedRow ℚ))
  | 0, st => some st.out
  | n + 1, st =>
    match rpStep thr ss sa st with
    | none => none
    | some nst =>
      if nst.ca = sa.length - 1 ∧ nst.cs = ss.length - 1 then some nst.out
      else rpLoop thr ss sa n nst

/-- relative_photometry (lightcurve.py lines 564-618): the rows
written, or none when the walk dies with an IndexError. -/
def relative_photometry (thr : ℚ) (ss sa : List (Record ℚ)) :
    Option (List (CorrectedRow ℚ)) :=
  rpLoop thr ss sa (ss.length + sa.length) ⟨0, 0, []⟩

/-- C9 amended: from any in-bounds state the step succeeds and
advances exactly one pointer by one; the reference pointer ca is the
one advanced exactly when the reference timestamp is strictly earlier
than the source timestamp OR the source pointer already sits on its
last index (so in particular a tie, or an exhausted source series
with the earlier timestamp on the source side, advances the reference
pointer, not the source pointer). -/
theorem c9_step_advances_one (thr : ℚ) (ss sa : List (Record ℚ))
    (st : RPState) (hs : st.cs < ss.length) (ha : st.ca < sa.length) :
    ∃ nst, rpStep thr ss sa st = some nst ∧
      ((nst.cs = st.cs + 1 ∧ nst.ca = st.ca) ∨
        (nst.cs = st.cs ∧ nst.ca = st.ca + 1)) ∧
      (nst.ca = st.ca + 1 ↔
        ((sa.get ⟨st.ca, ha⟩).time < (ss.get ⟨st.cs, hs⟩).time ∨
          st.cs = ss.length - 1)) := by
  have hgs : ss[st.cs]? = some (ss.get ⟨st.cs, hs⟩) := by
    rw [List.getElem?_eq_getElem hs]
    simp
  have hga : sa[st.ca]? = some (sa.get ⟨st.ca, ha⟩) := by
    rw [List.getElem?_eq_getElem ha]
    simp
  simp only [rpStep, hgs, hga]
  by_cases hc : (ss.get ⟨st.cs, hs⟩).time > (sa.get ⟨st.ca, ha⟩).time ∨
      st.cs = ss.length - 1
  · refine ⟨_, rfl, ?_, ?_⟩
    · rw [if_pos hc]
      exact Or.inr ⟨rfl, rfl⟩
    · rw [if_pos hc]
      simpa using hc
  · refine ⟨_, rfl, ?_, ?_⟩
    · rw [if_neg hc]
      exact Or.inl ⟨rfl, rfl⟩
    · rw [if_neg hc]
      simp only []
      constructor
      · intro hfalse
        exact absurd hfalse (by omega)
      · intro hor
        exact absurd hor hc

/-- C9 witness: source series with a single record at time 0,
reference series at times 5 and 6; from the initial state the step
succeeds and advances exactly one pointer, namely the reference
pointer, because the source pointer sits on its last index. -/
theorem c9_witness :
    ∃ nst, rpStep 1 [mkRec 0 1] [mkRec 5 1, mkRec 6 1] ⟨0, 0, []⟩ =
        some nst ∧
      ((nst.cs = 0 + 1 ∧ nst.ca = 0) ∨ (nst.cs = 0 ∧ nst.ca = 0 + 1)) ∧
      (nst.ca = 0 + 1 ↔
        (([mkRec 5 1, mkRec 6 1].get ⟨0, by decide⟩).time <
            ([mkRec 0 1].get ⟨0, by decide⟩).time ∨
          (0 : ℕ) = [mkRec 0 1].length - 1)) :=
  c9_step_advances_one 1 [mkRec 0 1] [mkRec 5 1, mkRec 6 1] ⟨0, 0, []⟩
    (by decide) (by decide)

/-- C9 counterexample: source series [time 0] is exhausted (its
pointer sits on the last index) and the source timestamp 0 is the
chronologically earlier one, so the claim requires the SOURCE pointer
to advance; the code advances the reference pointer instead: the step
takes (cs, ca) = (0, 0) to (0, 1). -/
theorem c9_counterexample :
    rpStep 1 [mkRec 0 1] [mkRec 5 1, mkRec 6 1] ⟨0, 0, []⟩ =
      some ⟨0, 1, []⟩ ∧
    (mkRec 0 1).time < (mkRec 5 1).time := by
  constructor
  · norm_num [rpStep, mkRec]
  · norm_num [mkRec]

/-- C10: with source times (10, 20) and reference times (0, 1) the
reference pointer is pushed past its last index (both source times
exceed both reference times, and the break of line 617 never fires
because the source pointer is not at its last index when the
reference pointer reaches its own), and the third iteration
dereferences the reference series out of range: IndexError, modelled
as none. -/
theorem c10_reference_pointer_overrun :
    relative_photometry (1 / 2) [mkRec 10 1, mkRec 20 1]
      [mkRec 0 1, mkRec 1 1] = none := by
  norm_num [relative_photometry, rpLoop, rpStep, mkRec]


/-!
## sort_by_timestamp and quicksort (lightcurve.py lines 153-208)

quicksort takes the middle element (index len/2) as pivot, skips it in
the partition loop with the identity test (i is pivot_index) of line
194, and partitions the remaining entries in order into those with
timestamp at most the pivot timestamp and the rest, recursing on
nonempty parts and concatenating less ++ pivot ++ more.  CPython
interns only the small integers up to 256: the loop index produced by
range and the pivot index produced by int(len/2.0) are the same object
exactly when they are equal AND the shared value is interned.  For
lists of 514 or more entries the pivot index is at least 257, the
identity test is always false, the pivot entry is never skipped — it
joins the less partition (its timestamp is at most itself) and is then
appended a second time at line 204 — and when the less partition stops
shrinking the recursion dies with RecursionError at the interpreter
recursion limit.  The recursion is therefore modelled with an explicit
depth budget; exhausting it models RecursionError.
-/

/-- CPython object identity on the two int objects compared at
lightcurve.py line 194: the loop index and int(len/2.0) refer to the
same object exactly when they are equal and the value is one of the
interned small integers (at most 256). -/
def pyIs (i j : ℕ) : Bool :=
  decide (i = j) && decide (j ≤ 256)

/-- The partition loop source (lightcurve.py lines 193-195): the
entries whose running index i fails the identity test against the
pivot index p, in order. -/
def loopKept (p : ℕ) : ℕ → List (Record ℚ) → List (Record ℚ)
  | _, [] => []
  | i, r :: rs =>
    if pyIs i p then loopKept p (i + 1) rs else r :: loopKept p (i + 1) rs

/-- The pivot entry contents_to_sort(pivot_index) (lightcurve.py lines
190-191); the index len/2 is always in bounds when the list has at
least two elements. -/
def pivotOf (l : List (Record ℚ)) : Record ℚ :=
  l.getD (l.length / 2) dflt

/-- The entries appended to less (lightcurve.py lines 196-197):
timestamp at most the pivot timestamp, original order kept. -/
def partLess (piv : ℚ) (rest : List (Record ℚ)) : List (Record ℚ) :=
  rest.filter (fun e => decide (e.time ≤ piv))

/-- The entries appended to more (lightcurve.py lines 198-199). -/
def partMore (piv : ℚ) (rest : List (Record ℚ)) : List (Record ℚ) :=
  rest.filter (fun e => !decide (e.time ≤ piv))

/-- The recursion depth the Python interpreter grants the quicksort
recursion (sys recursion limit, default 1000). -/
def pyRecLimit : ℕ := 1000

/-- quicksort (lightcurve.py lines 182-208) with an explicit recursion
budget: none models the RecursionError raised when the budget runs
out, which the real code reaches whenever the identity-test slip stops
the partitions from shrinking. -/
def quicksortFuel : ℕ → List (Record ℚ) → Option (List (Record ℚ))
  | 0, _ => none
  | fuel + 1, l =>
    if l.length < 2 then some l
    else
      match
        (if 0 < (partLess (pivotOf l).time (loopKept (l.length / 2) 0 l)).length
         then quicksortFuel fuel
           (partLess (pivotOf l).time (loopKept (l.length / 2) 0 l))
         else some []),
        (if 0 < (partMore (pivotOf l).time (loopKept (l.length / 2) 0 l)).length
         then quicksortFuel fuel
           (partMore (pivotOf l).time (loopKept (l.length / 2) 0 l))
         else some []) with
      | some ls, some ms => some (ls ++ pivotOf l :: ms)
      | _, _ => none

/-- quicksort as called by sort_by_timestamp, with the interpreter's
recursion budget. -/
def quicksort (l : List (Record ℚ)) : Option (List (Record ℚ)) :=
  quicksortFuel pyRecLimit l

/-- Result of sort_by_timestamp: crash on an empty file (contents(0)
raises IndexError) or on a RecursionError inside quicksort, the
warn-and-return of lightcurve.py lines 168-171 with no output, or the
sorted records written out. -/
inductive SortResult (α : Type) where
  | crash : SortResult α
  | dayTransition : SortResult α
  | sorted (out : List α) : SortResult α
  deriving DecidableEq, Repr

/-- sort_by_timestamp (lightcurve.py lines 153-180): runs the running
day-transition check seeded with the first timestamp while collecting
entries, then writes the quicksorted entries. -/
def sort_by_timestamp (l : List (Record ℚ)) : SortResult (Record ℚ) :=
  match l with
  | [] => SortResult.crash
  | c :: rest =>
    if chainOK c.time (c :: rest) then
      match quicksort (c :: rest) with
      | none => SortResult.crash
      | some out => SortResult.sorted out
    else SortResult.dayTransition

/-- What the identity-guarded loop keeps: when the pivot index is an
interned small integer the pivot position is removed, otherwise
nothing is. -/
theorem loopKept_eq : ∀ (l : List (Record ℚ)) (p i : ℕ),
    loopKept p i l = if p ≤ 256 ∧ i ≤ p then l.eraseIdx (p - i) else l := by
  intro l
  induction l with
  | nil =>
    intro p i
    split <;> rfl
  | cons r rs ih =>
    intro p i
    simp only [loopKept]
    by_cases hip : i = p ∧ p ≤ 256
    · rw [if_pos (by simp [pyIs, hip.1, hip.2])]
      rw [ih]
      obtain ⟨rfl, h256⟩ := hip
      rw [if_neg (by omega)]
      rw [if_pos ⟨h256, le_refl i⟩]
      simp
    · rw [if_neg (by
        simp only [pyIs, Bool.and_eq_true, decide_eq_true_eq]
        exact hip)]
      rw [ih]
      by_cases hcond : p ≤ 256 ∧ i ≤ p
      · have hilt : i < p :=
          lt_of_le_of_ne hcond.2 (fun he => hip ⟨he, hcond.1⟩)
        rw [if_pos ⟨hcond.1, by omega⟩, if_pos hcond]
        have hsub : p - i = (p - (i + 1)) + 1 := by omega
        rw [hsub, List.eraseIdx_cons_succ]
      · rw [if_neg (fun hc => hcond ⟨hc.1, by omega⟩), if_neg hcond]

/-- Removing the element at an in-bounds index and reattaching it in
front is a permutation of the original list. -/
theorem get_cons_eraseIdx_perm {α : Type} :
    ∀ (l : List α) (i : ℕ) (h : i < l.length),
      List.Perm l (l.get ⟨i, h⟩ :: l.eraseIdx i)
  | [], i, h => absurd h (Nat.not_lt_zero i)
  | a :: t, 0, _ => by
    simp only [List.get_cons_zero, List.eraseIdx_cons_zero]
    exact List.Perm.refl _
  | a :: t, i + 1, h => by
    have ih := get_cons_eraseIdx_perm t i (by
      simp only [List.length_cons] at h
      omega)
    simp only [List.get_cons_succ, List.eraseIdx_cons_succ]
    exact (ih.cons a).trans (List.Perm.swap _ _ _)

/-- The two partitions together are a permutation of the partitioned
list. -/
theorem part_append_perm (piv : ℚ) (rest : List (Record ℚ)) :
    List.Perm (partLess piv rest ++ partMore piv rest) rest :=
  List.filter_append_perm _ rest

/-- Membership in the less partition bounds the timestamp above by
the pivot timestamp. -/
theorem mem_partLess {x : Record ℚ} {piv : ℚ} {rest : List (Record ℚ)}
    (hx : x ∈ partLess piv rest) : x.time ≤ piv := by
  simp only [partLess] at hx
  have h := List.of_mem_filter hx
  exact of_decide_eq_true h

/-- Membership in the more partition bounds the timestamp below
strictly by the pivot timestamp. -/
theorem mem_partMore {x : Record ℚ} {piv : ℚ} {rest : List (Record ℚ)}
    (hx : x ∈ partMore piv rest) : piv < x.time := by
  simp only [partMore] at hx
  have h := List.of_mem_filter hx
  simp only [Bool.not_eq_true', decide_eq_false_iff_not] at h
  exact lt_of_not_le h

/-- The middle pivot as a checked lookup. -/
theorem pivotOf_eq_get (l : List (Record ℚ)) (hp : l.length / 2 < l.length) :
    pivotOf l = l.get ⟨l.length / 2, hp⟩ := by
  simp only [pivotOf]
  rw [List.getD_eq_getElem l dflt hp]
  simp

/-- On lists of at most 513 records the pivot index stays interned at
every level of the recursion, the identity test behaves as index
equality, and quicksort with a budget exceeding the length terminates
with a sorted permutation of its input. -/
theorem quicksortFuel_small : ∀ (fuel : ℕ) (l : List (Record ℚ)),
    l.length < fuel → l.length ≤ 513 →
    ∃ out, quicksortFuel fuel l = some out ∧ List.Perm out l ∧
      List.Pairwise (fun a b : Record ℚ => a.time ≤ b.time) out := by
  intro fuel
  induction fuel with
  | zero =>
    intro l hf _
    omega
  | succ fuel ih =>
    intro l hf hlen
    by_cases hsmall : l.length < 2
    · refine ⟨l, by simp [quicksortFuel, hsmall], List.Perm.refl l, ?_⟩
      cases l with
      | nil => simp
      | cons a t =>
        cases t with
        | nil => simp
        | cons b t2 =>
          simp only [List.length_cons] at hsmall
          omega
    · have hp : l.length / 2 < l.length := by omega
      have h256 : l.length / 2 ≤ 256 := by omega
      have hkept : loopKept (l.length / 2) 0 l = l.eraseIdx (l.length / 2) := by
        rw [loopKept_eq, if_pos ⟨h256, Nat.zero_le _⟩]
        simp
      have herase : (l.eraseIdx (l.length / 2)).length = l.length - 1 :=
        List.length_eraseIdx_of_lt hp
      have hlessle :
          (partLess (pivotOf l).time (l.eraseIdx (l.length / 2))).length ≤
            l.length - 1 := by
        have hfil := List.length_filter_le
          (fun e => decide (e.time ≤ (pivotOf l).time))
          (l.eraseIdx (l.length / 2))
        simp only [partLess]
        omega
      have hmorele :
          (partMore (pivotOf l).time (l.eraseIdx (l.length / 2))).length ≤
            l.length - 1 := by
        have hfil := List.length_filter_le
          (fun e => !decide (e.time ≤ (pivotOf l).time))
          (l.eraseIdx (l.length / 2))
        simp only [partMore]
        omega
      obtain ⟨ls, hls, hlsp, hlss⟩ : ∃ ls,
          (if 0 < (partLess (pivotOf l).time (loopKept (l.length / 2) 0 l)).length
           then quicksortFuel fuel
             (partLess (pivotOf l).time (loopKept (l.length / 2) 0 l))
           else some []) = some ls ∧
          List.Perm ls (partLess (pivotOf l).time (l.eraseIdx (l.length / 2))) ∧
          List.Pairwise (fun a b : Record ℚ => a.time ≤ b.time) ls := by
        rw [hkept]
        by_cases hpos :
            0 < (partLess (pivotOf l).time (l.eraseIdx (l.length / 2))).length
        · rw [if_pos hpos]
          exact ih _ (by omega) (by omega)
        · rw [if_neg hpos]
          have hempty : partLess (pivotOf l).time (l.eraseIdx (l.length / 2)) = [] :=
            List.length_eq_zero.mp (by omega)
          exact ⟨[], rfl, by rw [hempty], by simp⟩
      obtain ⟨ms, hms, hmsp, hmss⟩ : ∃ ms,
          (if 0 < (partMore (pivotOf l).time (loopKept (l.length / 2) 0 l)).length
           then quicksortFuel fuel
             (partMore (pivotOf l).time (loopKept (l.length / 2) 0 l))
           else some []) = some ms ∧
          List.Perm ms (partMore (pivotOf l).time (l.eraseIdx (l.length / 2))) ∧
          List.Pairwise (fun a b : Record ℚ => a.time ≤ b.time) ms := by
        rw [hkept]
        by_cases hpos :
            0 < (partMore (pivotOf l).time (l.eraseIdx (l.length / 2))).length
        · rw [if_pos hpos]
          exact ih _ (by omega) (by omega)
        · rw [if_neg hpos]
          have hempty : partMore (pivotOf l).time (l.eraseIdx (l.length / 2)) = [] :=
            List.length_eq_zero.mp (by omega)
          exact ⟨[], rfl, by rw [hempty], by simp⟩
      refine ⟨ls ++ pivotOf l :: ms, ?_, ?_, ?_⟩
      · simp only [quicksortFuel]
        rw [if_neg hsmall, hls, hms]
      · refine ((hlsp.append (hmsp.cons (pivotOf l))).trans ?_)
        refine (List.perm_middle).trans ?_
        refine ((part_append_perm (pivotOf l).time
          (l.eraseIdx (l.length / 2))).cons (pivotOf l)).trans ?_
        rw [pivotOf_eq_get l hp]
        exact (get_cons_eraseIdx_perm l (l.length / 2) hp).symm
      · rw [List.pairwise_append]
        refine ⟨hlss, ?_, ?_⟩
        · rw [List.pairwise_cons]
          constructor
          · intro x hx
            exact le_of_lt (mem_partMore (hmsp.mem_iff.mp hx))
          · exact hmss
        · intro x hx y hy
          have hx2 : x.time ≤ (pivotOf l).time :=
            mem_partLess (hlsp.mem_iff.mp hx)
          rcases List.mem_cons.mp hy with rfl | hy2
          · exact hx2
          · exact le_trans hx2 (le_of_lt (mem_partMore (hmsp.mem_iff.mp hy2)))

/-- The running check equals a chain condition on the timestamp list
seeded with the old timestamp. -/
theorem chainOK_iff (old : ℚ) (l : List (Record ℚ)) :
    chainOK old l = true ↔
      List.Chain' (fun a b : ℚ => |a - b| ≤ 85000)
        (old :: l.map (·.time)) := by
  induction l generalizing old with
  | nil => simp [chainOK]
  | cons r rs ih =>
    simp only [chainOK, List.map_cons, Bool.and_eq_true, decide_eq_true_eq,
      List.chain'_cons, ih]

/-- Along a chain whose steps preserve the value of g, the value of g
is the same at any two members. -/
theorem chain'_eq_const {α β : Type} (g : α → β) :
    ∀ l : List α, List.Chain' (fun a b => g a = g b) l →
      ∀ x ∈ l, ∀ y ∈ l, g x = g y := by
  intro l
  induction l with
  | nil =>
    intro _ x hx
    exact absurd hx (List.not_mem_nil x)
  | cons a t ih =>
    intro hch x hx y hy
    cases t with
    | nil =>
      simp only [List.mem_singleton] at hx hy
      rw [hx, hy]
    | cons b t2 =>
      have hab : g a = g b := (List.chain'_cons.mp hch).1
      have hch2 := (List.chain'_cons.mp hch).2
      have key : ∀ z ∈ a :: b :: t2, g z = g b := by
        intro z hz
        rcases List.mem_cons.mp hz with rfl | hz2
        · exact hab
        · exact ih hch2 z hz2 b (by simp)
      rw [key x hx, key y hy]

/-- A sorted permutation of a list whose adjacent gaps stay within
85000 also has adjacent gaps within 85000: between two neighbours of
the sorted list every member lies on one side or the other, and the
original order must step across the divide somewhere. -/
theorem chain_gap_of_sorted (s t : List ℚ) (hperm : List.Perm s t)
    (hchain : List.Chain' (fun a b : ℚ => |a - b| ≤ 85000) s)
    (hsort : List.Pairwise (· ≤ ·) t) :
    List.Chain' (fun a b : ℚ => |a - b| ≤ 85000) t := by
  rw [List.chain'_iff_get] at hchain ⊢
  intro i hi
  set u := t.get ⟨i, by omega⟩ with hu
  set v := t.get ⟨i + 1, by omega⟩ with hv
  have hmono : ∀ (j k : ℕ) (hj : j < t.length) (hk : k < t.length), j ≤ k →
      t.get ⟨j, hj⟩ ≤ t.get ⟨k, hk⟩ := by
    intro j k hj hk hjk
    rcases Nat.eq_or_lt_of_le hjk with rfl | hlt
    · exact le_refl _
    · exact List.pairwise_iff_get.mp hsort ⟨j, hj⟩ ⟨k, hk⟩ hlt
  have huv : u ≤ v := hmono i (i + 1) (by omega) (by omega) (by omega)
  rw [abs_sub_comm, abs_of_nonneg (sub_nonneg.mpr huv)]
  by_contra hgt
  push_neg at hgt
  have hclass : ∀ x ∈ t, x ≤ u ∨ v ≤ x := by
    intro x hx
    rcases List.mem_iff_get.mp hx with ⟨⟨j, hj⟩, hxj⟩
    rcases Nat.lt_or_ge j (i + 1) with hji | hji
    · left
      rw [← hxj]
      exact hmono j i hj (by omega) (by omega)
    · right
      rw [← hxj]
      exact hmono (i + 1) j (by omega) hj (by omega)
  have hsame : ∀ x ∈ s, x ≤ u ∨ v ≤ x := fun x hx =>
    hclass x (hperm.mem_iff.mp hx)
  have huv' : u < v := by linarith
  have hgchain : List.Chain'
      (fun a b : ℚ => (decide (a ≤ u) : Bool) = decide (b ≤ u)) s := by
    rw [List.chain'_iff_get]
    intro k hk
    have hadj := hchain k hk
    have hbound := (abs_sub_le_iff.mp hadj)
    have ha := hsame _ (List.get_mem s k (by omega))
    have hb := hsame _ (List.get_mem s (k + 1) (by omega))
    rcases ha with ha | ha
    · rcases hb with hb | hb
      · rw [decide_eq_true ha, decide_eq_true hb]
      · exfalso
        linarith
    · rcases hb with hb | hb
      · exfalso
        linarith
      · rw [decide_eq_false (not_le.mpr (lt_of_lt_of_le huv' ha)),
          decide_eq_false (not_le.mpr (lt_of_lt_of_le huv' hb))]
  have hu_mem : u ∈ s := hperm.mem_iff.mpr (List.get_mem t i (by omega))
  have hv_mem : v ∈ s := hperm.mem_iff.mpr (List.get_mem t (i + 1) (by omega))
  have hvu := chain'_eq_const _ s hgchain v hv_mem u hu_mem
  rw [decide_eq_true (le_refl u), decide_eq_false (not_le.mpr huv')] at hvu
  exact Bool.false_ne_true hvu

/-- C7 amended: on inputs of at most 513 records — so the pivot index
is an interned small integer and the identity test of line 194 acts
as index equality at every level of the recursion — sort_by_timestamp
writes a permutation of the input that is non-decreasing in time, and
a second application also succeeds and reproduces the same sequence
of times.  On longer inputs the claim fails: see the 514-record
counterexample. -/
theorem c7_sort_small_correct (c : Record ℚ) (rest : List (Record ℚ))
    (hlen : (c :: rest).length ≤ 513)
    (h : chainOK c.time (c :: rest) = true) :
    ∃ out, sort_by_timestamp (c :: rest) = SortResult.sorted out ∧
      List.Perm (c :: rest) out ∧
      List.Pairwise (fun a b : Record ℚ => a.time ≤ b.time) out ∧
      ∃ out2, sort_by_timestamp out = SortResult.sorted out2 ∧
        out2.map (·.time) = out.map (·.time) := by
  obtain ⟨out, hqs, hperm, hsorted⟩ :=
    quicksortFuel_small pyRecLimit (c :: rest)
      (by simp only [pyRecLimit]; omega) hlen
  refine ⟨out, ?_, hperm.symm, hsorted, ?_⟩
  · simp only [sort_by_timestamp, quicksort]
    rw [if_pos h, hqs]
  · have hlen2 : out.length ≤ 513 := by
      have he := hperm.length_eq
      omega
    have hne : out ≠ [] := by
      intro hnil
      rw [hnil] at hperm
      have he := hperm.length_eq
      simp at he
    obtain ⟨c2, rest2, hcr⟩ := List.exists_cons_of_ne_nil hne
    have hchain_in : List.Chain' (fun a b : ℚ => |a - b| ≤ 85000)
        ((c :: rest).map (·.time)) :=
      ((chainOK_iff c.time (c :: rest)).mp h).tail
    have hchain_out : List.Chain' (fun a b : ℚ => |a - b| ≤ 85000)
        (out.map (·.time)) :=
      chain_gap_of_sorted ((c :: rest).map (·.time)) (out.map (·.time))
        (hperm.symm.map (·.time)) hchain_in
        ((List.pairwise_map).mpr hsorted)
    have hchainOK2 : chainOK c2.time (c2 :: rest2) = true := by
      rw [chainOK_iff]
      rw [hcr] at hchain_out
      simp only [List.map_cons] at hchain_out ⊢
      exact List.chain'_cons.mpr ⟨by simp, hchain_out⟩
    obtain ⟨out2, hqs2, hperm2, hsorted2⟩ :=
      quicksortFuel_small pyRecLimit out
        (by simp only [pyRecLimit]; omega) hlen2
    refine ⟨out2, ?_, ?_⟩
    · rw [hcr]
      rw [hcr] at hqs2
      simp only [sort_by_timestamp, quicksort]
      rw [if_pos hchainOK2, hqs2]
    · exact @List.eq_of_perm_of_sorted ℚ (· ≤ ·) _ _ _
        (hperm2.map (·.time))
        ((List.pairwise_map).mpr hsorted2)
        ((List.pairwise_map).mpr hsorted)

/-- C7 witness: the two-record series with times 2 and 1 passes the
precondition and the length bound; sorting yields times (1, 2) and
sorting again keeps them. -/
theorem c7_witness :
    ∃ out, sort_by_timestamp [mkRec 2 1, mkRec 1 1] = SortResult.sorted out ∧
      List.Perm [mkRec 2 1, mkRec 1 1] out ∧
      List.Pairwise (fun a b : Record ℚ => a.time ≤ b.time) out ∧
      ∃ out2, sort_by_timestamp out = SortResult.sorted out2 ∧
        out2.map (·.time) = out.map (·.time) :=
  c7_sort_small_correct (mkRec 2 1) [mkRec 1 1] (by simp)
    (by norm_num [chainOK, mkRec])

/-- Record with unit flux at an integer timestamp, for the long
counterexample series. -/
def unitRec (i : ℕ) : Record ℚ :=
  mkRec i 1

/-- A 514-record series with unit time steps 0, 1, ..., 513: the
first length at which the pivot index 514/2 = 257 leaves the interned
range. -/
def bigSeries : List (Record ℚ) :=
  (List.range' 0 514).map unitRec

/-- Unit-step timestamps pass the running day-transition check from
any seed within 85000 of their start. -/
theorem chainOK_unit_steps : ∀ (n s : ℕ) (old : ℚ),
    |old - (s : ℚ)| ≤ 85000 →
    chainOK old ((List.range' s n).map unitRec) = true := by
  intro n
  induction n with
  | zero =>
    intro s old _
    rfl
  | succ n ih =>
    intro s old hold
    have hstep : chainOK (unitRec s).time
        ((List.range' (s + 1) n).map unitRec) = true := by
      refine ih (s + 1) _ ?_
      show |(s : ℚ) - ((s + 1 : ℕ) : ℚ)| ≤ 85000
      have hcast : ((s : ℚ) - ((s + 1 : ℕ) : ℚ)) = -1 := by
        push_cast
        ring
      rw [hcast]
      norm_num
    show chainOK old (unitRec s :: (List.range' (s + 1) n).map unitRec) = true
    simp only [chainOK, Bool.and_eq_true, decide_eq_true_eq]
    exact ⟨hold, hstep⟩

/-- The pivot timestamp of the long series is 257. -/
theorem bigSeries_pivot_time : (pivotOf bigSeries).time = ((257 : ℕ) : ℚ) := by
  have hlen : bigSeries.length / 2 = 257 := by
    simp [bigSeries]
  have h257 : (257 : ℕ) < bigSeries.length := by
    simp [bigSeries]
  simp only [pivotOf, hlen]
  rw [List.getD_eq_getElem bigSeries dflt h257]
  simp [bigSeries, List.getElem_range'_1, unitRec, mkRec]

/-- The long series split at the pivot boundary. -/
theorem bigSeries_split :
    bigSeries = (List.range' 0 258).map unitRec ++
      (List.range' 258 256).map unitRec := by
  have happ := List.range'_append 0 258 256 1
  norm_num at happ
  rw [bigSeries, ← happ, List.map_append]

/-- Because the pivot is never skipped on the long series, the less
partition holds the 258 records with timestamps 0..257, the pivot
record among them. -/
theorem bigSeries_less :
    partLess (pivotOf bigSeries).time bigSeries =
      (List.range' 0 258).map unitRec := by
  rw [bigSeries_pivot_time]
  conv_lhs => rw [bigSeries_split]
  simp only [partLess, List.filter_append]
  have hA : List.filter (fun e => decide (e.time ≤ ((257 : ℕ) : ℚ)))
      ((List.range' 0 258).map unitRec) =
      (List.range' 0 258).map unitRec := by
    rw [List.filter_eq_self]
    intro a ha
    rcases List.mem_map.mp ha with ⟨i, hi, rfl⟩
    have hi' : i < 258 := by
      have hm := List.mem_range'_1.mp hi
      omega
    simp only [unitRec, mkRec, decide_eq_true_eq]
    exact_mod_cast Nat.le_of_lt_succ hi'
  have hB : List.filter (fun e => decide (e.time ≤ ((257 : ℕ) : ℚ)))
      ((List.range' 258 256).map unitRec) = [] := by
    rw [List.filter_eq_nil_iff]
    intro a ha
    rcases List.mem_map.mp ha with ⟨i, hi, rfl⟩
    have hi' : 258 ≤ i := (List.mem_range'_1.mp hi).1
    simp only [unitRec, mkRec, decide_eq_true_eq]
    intro hle
    have hle' : i ≤ 257 := by exact_mod_cast hle
    omega
  rw [hA, hB, List.append_nil]

/-- The more partition holds the 256 records with timestamps
258..513. -/
theorem bigSeries_more :
    partMore (pivotOf bigSeries).time bigSeries =
      (List.range' 258 256).map unitRec := by
  rw [bigSeries_pivot_time]
  conv_lhs => rw [bigSeries_split]
  simp only [partMore, List.filter_append]
  have hA : List.filter (fun e => !decide (e.time ≤ ((257 : ℕ) : ℚ)))
      ((List.range' 0 258).map unitRec) = [] := by
    rw [List.filter_eq_nil_iff]
    intro a ha
    rcases List.mem_map.mp ha with ⟨i, hi, rfl⟩
    have hi' : i < 258 := by
      have hm := List.mem_range'_1.mp hi
      omega
    simp only [unitRec, mkRec, Bool.not_eq_true', decide_eq_false_iff_not,
      not_not]
    exact_mod_cast Nat.le_of_lt_succ hi'
  have hB : List.filter (fun e => !decide (e.time ≤ ((257 : ℕ) : ℚ)))
      ((List.range' 258 256).map unitRec) =
      (List.range' 258 256).map unitRec := by
    rw [List.filter_eq_self]
    intro a ha
    rcases List.mem_map.mp ha with ⟨i, hi, rfl⟩
    have hi' : 258 ≤ i := (List.mem_range'_1.mp hi).1
    simp only [unitRec, mkRec, Bool.not_eq_true', decide_eq_false_iff_not]
    intro hle
    have hle' : i ≤ 257 := by exact_mod_cast hle
    omega
  rw [hA, hB, List.nil_append]

/-- quicksort on the long series terminates (the partitions are short
enough) but emits 515 rows from 514 input rows: the pivot record is
both kept in the less partition and appended after it. -/
theorem bigSeries_quicksort :
    ∃ out, quicksort bigSeries = some out ∧ out.length = 515 := by
  obtain ⟨ls, hls, hlsp, hlss⟩ :=
    quicksortFuel_small 999 ((List.range' 0 258).map unitRec)
      (by simp) (by simp)
  obtain ⟨ms, hms, hmsp, hmss⟩ :=
    quicksortFuel_small 999 ((List.range' 258 256).map unitRec)
      (by simp) (by simp)
  have hkept : loopKept (bigSeries.length / 2) 0 bigSeries = bigSeries := by
    rw [loopKept_eq]
    rw [if_neg (by simp [bigSeries])]
  refine ⟨ls ++ pivotOf bigSeries :: ms, ?_, ?_⟩
  · rw [show quicksort bigSeries = quicksortFuel (999 + 1) bigSeries from rfl]
    rw [quicksortFuel]
    rw [if_neg (by simp [bigSeries])]
    rw [hkept, bigSeries_less, bigSeries_more]
    rw [if_pos (by simp), if_pos (by simp)]
    rw [hls, hms]
  · have h1 := hlsp.length_eq
    have h2 := hmsp.length_eq
    simp only [List.length_map, List.length_range'] at h1 h2
    simp only [List.length_append, List.length_cons]
    omega

/-- When the running check passes and quicksort returns rows, the rows
are written. -/
theorem sort_by_timestamp_sorted_of (c : Record ℚ) (rest out : List (Record ℚ))
    (h : chainOK c.time (c :: rest) = true)
    (hq : quicksort (c :: rest) = some out) :
    sort_by_timestamp (c :: rest) = SortResult.sorted out := by
  simp only [sort_by_timestamp]
  rw [if_pos h, hq]

/-- C7 counterexample: the 514-record series with unit time steps
passes the day-transition precondition, yet sort_by_timestamp writes
515 records — the pivot record twice — because the identity test
(i is pivot_index) is false for the non-interned pivot index 257, so
the output is not a permutation of the input. -/
theorem c7_counterexample :
    chainOK (unitRec 0).time bigSeries = true ∧
    ∃ out, sort_by_timestamp bigSeries = SortResult.sorted out ∧
      ¬ List.Perm bigSeries out := by
  have hchain : chainOK (unitRec 0).time bigSeries = true := by
    refine chainOK_unit_steps 514 0 (unitRec 0).time ?_
    show |(0 : ℚ) - ((0 : ℕ) : ℚ)| ≤ 85000
    norm_num
  obtain ⟨out, hq, hlen⟩ := bigSeries_quicksort
  have hb : bigSeries = unitRec 0 :: (List.range' 1 513).map unitRec := rfl
  refine ⟨hchain, out, ?_, ?_⟩
  · rw [hb] at hq hchain ⊢
    exact sort_by_timestamp_sorted_of (unitRec 0)
      ((List.range' 1 513).map unitRec) out hchain hq
  · intro hperm
    have he := hperm.length_eq
    rw [hlen] at he
    simp [bigSeries] at he

end PESTO
